import Mathlib

/-!
Verification development for the FileFox file browser (src/main.rs).

The development shallowly embeds the core of the application:
the recursive search walk (find_entries_recursively), the directory
lister (read_current_directory_entries), navigation (navigate_to),
the entry mutator (rename_entry, delete_entry), the search launcher
(execute_search) and the polling half of MyExplorerApp::update, together
with a small event semantics for the search-session lifecycle.

Filesystem paths are lists of name components.  A filesystem subtree is an
inductive tree whose directories carry a readability flag: a directory with
readOk = false models one whose read_dir call fails (permission denied),
which walkdir reports as an error entry that the code skips.
-/

/-- Substring containment on character lists, mirroring Rust str::contains:
the needle occurs contiguously somewhere in the haystack.  An empty needle
always matches. -/
def containsSub : List Char → List Char → Bool
  | [], sub => sub.isEmpty
  | c :: rest, sub => sub.isPrefixOf (c :: rest) || containsSub rest sub

/-- String form of containsSub, mirroring str::contains on &str. -/
def strContains (s sub : String) : Bool := containsSub s.data sub.data

/-- Character-wise lowercasing, mirroring str::to_lowercase (restricted to
the simple one-to-one case mapping; none of the claims depends on the
multi-character Unicode special cases). -/
def toLowerStr (s : String) : String := String.mk (s.data.map Char.toLower)

/-- A model filesystem subtree: a file with a name and abstract content, or
a directory with a name, a readability flag and a list of children. -/
inductive FSTree : Type where
  | file (name : String) (content : Nat) : FSTree
  | dir (name : String) (readOk : Bool) (children : List FSTree) : FSTree

/-- The name of the root entry of a subtree. -/
def FSTree.name : FSTree → String
  | .file n _ => n
  | .dir n _ _ => n

/-- Whether the root entry of a subtree is a directory. -/
def FSTree.isDirB : FSTree → Bool
  | .file _ _ => false
  | .dir _ _ _ => true

mutual
/-- The traversal underlying find_entries_recursively, mirroring
WalkDir::new(start).into_iter().filter_map(|e| e.ok()): the entry at the
start path itself is yielded first, and the contents of a directory are
visited only when reading it succeeds (readOk); an unreadable directory is
still yielded itself, but its contents are skipped, exactly as the code
skips walkdir error entries.  Each yielded entry is represented by its
path. -/
def walkTree (p : List String) : FSTree → List (List String)
  | FSTree.file _ _ => [p]
  | FSTree.dir _ ok cs => p :: (if ok then walkForest p cs else [])

/-- Traversal of the children of a directory whose path is p. -/
def walkForest (p : List String) : List FSTree → List (List String)
  | [] => []
  | c :: cs => walkTree (p ++ [c.name]) c ++ walkForest p cs
end

/-- The final component of a path, mirroring Path::file_name on the paths
produced by the walk ("" when the path has no component). -/
def lastComponent (p : List String) : String := p.getLast?.getD ""

/-- src/main.rs, find_entries_recursively: walk the subtree rooted at the
start path and keep exactly the entries whose file-or-directory name,
lowercased, contains the (already lowercased) query.  The rayon
parallelisation only affects the order in which the kept entries are
collected, not which entries are kept; this definition collects them in
traversal order. -/
def find_entries_recursively (start_path : List String) (t : FSTree)
    (query_lower : String) : List (List String) :=
  (walkTree start_path t).filter
    (fun p => strContains (toLowerStr (lastComponent p)) query_lower)

/-- Reachability without a traversal error in the subtree t rooted at path
p: the root entry itself is reached, and every entry reached below a child
of a readable directory is reached. -/
inductive Reaches : List String → FSTree → List String → Prop where
  | here (p : List String) (t : FSTree) : Reaches p t p
  | child {p q : List String} {nm : String} {cs : List FSTree} (c : FSTree)
      (hc : c ∈ cs) (h : Reaches (p ++ [c.name]) c q) :
      Reaches p (FSTree.dir nm true cs) q

/-- Resolution of a path (a list of components, relative to the tree root)
to the subtree it denotes, mirroring how the OS resolves the paths the app
builds with PathBuf::push of single entry names. -/
def lookupPath : List String → FSTree → Option FSTree
  | [], t => some t
  | _ :: _, FSTree.file _ _ => none
  | n :: rest, FSTree.dir _ _ cs =>
      match cs.find? (fun c => c.name == n) with
      | some c => lookupPath rest c
      | none => none

/-- Path::is_dir on the model filesystem. -/
def isDir (fs : FSTree) (p : List String) : Bool :=
  match lookupPath p fs with
  | some (FSTree.dir _ _ _) => true
  | _ => false

/-- std::fs::read_dir on the model filesystem: succeeds with the children
exactly when the path denotes a readable directory. -/
def readDir (fs : FSTree) (p : List String) : Except Unit (List FSTree) :=
  match lookupPath p fs with
  | some (FSTree.dir _ true cs) => Except.ok cs
  | _ => Except.error ()

/-- The display name the lister builds for one entry: directories are
marked with a trailing slash (main.rs line 69). -/
def decorateEntry (c : FSTree) : String :=
  if c.isDirB then c.name ++ "/" else c.name

/-- The entry list the lister builds from a successful read: the decorated
names in enumeration order, then sort_unstable (main.rs lines 65-75).
sort_unstable sorts by Rust String order, i.e. byte-wise UTF-8 order, which
agrees with code-point order, which is the String order used here; for a
list of strings the sorted result does not depend on stability, so any
sorting function is a faithful embedding. -/
def buildEntries (cs : List FSTree) : List String :=
  List.insertionSort (· ≤ ·) (cs.map decorateEntry)

/-- The fields of MyExplorerApp the claims are about, together with the
concurrency bookkeeping of the search machinery.  Channels are modelled by
identifiers allocated from the counter nextChan (mpsc::channel() always
yields a channel distinct from every other channel, which the allocation
models); search_receiver holds the identifier of the channel the app holds
the Receiver of, mirroring Option<Receiver<...>> (search_sender mirrors it
and is not modelled separately); pending holds, per spawned worker thread
that has not yet sent, the channel it will send on and the value it will
send; inbox holds sent but not yet received messages.  The purely
presentational fields (rename_mode, rename_input, show_search_popup,
app_icon) play no role in any claim and are omitted. -/
structure AppState where
  current_dir : List String
  entries : List String
  filtered_entries : Option (List String)
  recursive_search_results : Option (List (List String))
  search_query : String
  is_searching : Bool
  search_receiver : Option Nat
  nextChan : Nat
  pending : List (Nat × List (List String))
  inbox : List (Nat × List (List String))
deriving DecidableEq

/-- src/main.rs, read_current_directory_entries: clear the entries, read
the current directory, on success push the decorated names and sort; on
failure only report the error (the cleared entry list stays empty); in both
cases reset the filtered entries, the recursive search results, the
searching flag and both channel ends. -/
def read_current_directory_entries (fs : FSTree) (s : AppState) : AppState :=
  match readDir fs s.current_dir with
  | Except.ok cs =>
      { s with entries := buildEntries cs,
               filtered_entries := none,
               recursive_search_results := none,
               is_searching := false,
               search_receiver := none }
  | Except.error _ =>
      { s with entries := [],
               filtered_entries := none,
               recursive_search_results := none,
               is_searching := false,
               search_receiver := none }

/-- src/main.rs, navigate_to: join the current directory with the entry
name; only when the result is a directory, replace the current directory
and reload (which also resets the search state); otherwise do nothing. -/
def navigate_to (fs : FSTree) (s : AppState) (entry_name : String) : AppState :=
  let new_path := s.current_dir ++ [entry_name]
  if isDir fs new_path then
    read_current_directory_entries fs { s with current_dir := new_path }
  else s

/-- The value the background worker of a search computes and sends: the
recursive walk from the directory that was current when the search was
started (the thread owns clones of the path and query).  WalkDir on a path
that no longer resolves yields a single error entry, which the code skips,
so the worker then sends the empty result. -/
def searchResult (fs : FSTree) (cd : List String) (query_lower : String) :
    List (List String) :=
  match lookupPath cd fs with
  | some t => find_entries_recursively cd t query_lower
  | none => []

/-- src/main.rs, execute_search: lowercase the query; if it is empty, clear
the results and the searching flag and return without touching anything
else; otherwise create a fresh channel, install its receiver (and sender),
set the searching flag, clear the old results, and spawn a worker thread
that will send the walk's result on that channel. -/
def execute_search (fs : FSTree) (s : AppState) : AppState :=
  let query_lower := toLowerStr s.search_query
  if query_lower = "" then
    { s with recursive_search_results := none, is_searching := false }
  else
    { s with search_receiver := some s.nextChan,
             nextChan := s.nextChan + 1,
             is_searching := true,
             recursive_search_results := none,
             pending :=
               s.pending ++ [(s.nextChan, searchResult fs s.current_dir query_lower)] }

/-- The polling block at the top of MyExplorerApp::update (main.rs lines
219-237): when a receiver is held, try_recv on it; on Ok store the results,
clear the searching flag and drop both channel ends; on Empty (a worker for
this channel exists but has not sent) do nothing; on Disconnected (no
worker holds the sender any more and nothing is buffered) clear the
searching flag and drop the channel ends without touching the results. -/
def update_poll_search (s : AppState) : AppState :=
  match s.search_receiver with
  | none => s
  | some c =>
      match s.inbox.find? (fun pr => pr.1 == c) with
      | some pr =>
          { s with recursive_search_results := some pr.2,
                   is_searching := false,
                   search_receiver := none,
                   inbox := s.inbox.eraseP (fun pr => pr.1 == c) }
      | none =>
          if s.pending.any (fun pr => pr.1 == c) then s
          else { s with is_searching := false, search_receiver := none }

/-- Renaming the root entry of a subtree, used by the rename model. -/
def setName (new : String) : FSTree → FSTree
  | FSTree.file _ c => FSTree.file new c
  | FSTree.dir _ ok cs => FSTree.dir new ok cs

/-- find? by name among the children of a directory. -/
def findChild (cs : List FSTree) (n : String) : Option FSTree :=
  cs.find? (fun c => c.name == n)

/-- Modelled from the documented semantics of std::fs::rename, which the
source calls and whose implementation is outside this repository: renaming
within one directory fails when the old name does not exist; renaming an
entry onto itself succeeds and changes nothing; renaming onto an existing
directory fails (the app targets Windows, where MoveFileExW refuses an
existing directory destination); renaming onto an existing file succeeds
and replaces that file (MOVEFILE_REPLACE_EXISTING on Windows, rename(2) on
Unix). -/
def renameChildren (cs : List FSTree) (old new : String) :
    Except Unit (List FSTree) :=
  if old = new then
    match findChild cs old with
    | some _ => Except.ok cs
    | none => Except.error ()
  else
    match findChild cs old with
    | none => Except.error ()
    | some _ =>
        match findChild cs new with
        | some (FSTree.dir _ _ _) => Except.error ()
        | _ =>
            Except.ok ((cs.filter (fun c => c.name != new)).map
              (fun c => if c.name == old then setName new c else c))

/-- The effect of std::fs::rename(dir/old, dir/new) on the whole model
filesystem: apply renameChildren inside the directory the path denotes;
error when the path does not denote a directory. -/
def renameAt : List String → String → String → FSTree → Except Unit FSTree
  | [], old, new, FSTree.dir nm ok cs =>
      (renameChildren cs old new).map (fun cs2 => FSTree.dir nm ok cs2)
  | [], _, _, FSTree.file _ _ => Except.error ()
  | n :: rest, old, new, FSTree.dir nm ok cs =>
      match findChild cs n with
      | some c =>
          (renameAt rest old new c).map (fun c2 =>
            FSTree.dir nm ok (cs.map (fun d => if d.name == n then c2 else d)))
      | none => Except.error ()
  | _ :: _, _, _, FSTree.file _ _ => Except.error ()

/-- Removing one named entry from a directory's children: errors when the
name is absent; files are removed with remove_file and directories with
remove_dir_all, in both cases the whole entry (with any subtree) is
gone. -/
def deleteChildren (cs : List FSTree) (n : String) :
    Except Unit (List FSTree) :=
  match findChild cs n with
  | some _ => Except.ok (cs.filter (fun c => c.name != n))
  | none => Except.error ()

/-- The effect of deleting dir/name on the whole model filesystem. -/
def deleteAt : List String → String → FSTree → Except Unit FSTree
  | [], nm, FSTree.dir dn ok cs =>
      (deleteChildren cs nm).map (fun cs2 => FSTree.dir dn ok cs2)
  | [], _, FSTree.file _ _ => Except.error ()
  | n :: rest, nm, FSTree.dir dn ok cs =>
      match findChild cs n with
      | some c =>
          (deleteAt rest nm c).map (fun c2 =>
            FSTree.dir dn ok (cs.map (fun d => if d.name == n then c2 else d)))
      | none => Except.error ()
  | _ :: _, _, FSTree.file _ _ => Except.error ()

/-- src/main.rs, rename_entry: build old and new paths under the current
directory and call std::fs::rename; on error only report it (the app state
is untouched); on success reload the current directory (which also resets
the search state).  The pair returned is (filesystem after the call, app
state after the call). -/
def rename_entry (fs : FSTree) (s : AppState) (old_name new_name : String) :
    FSTree × AppState :=
  match renameAt s.current_dir old_name new_name fs with
  | Except.error _ => (fs, s)
  | Except.ok fs2 => (fs2, read_current_directory_entries fs2 s)

/-- src/main.rs, delete_entry: build the path under the current directory,
remove_dir_all for a directory and remove_file otherwise; on error only
report it; on success reload the current directory (which also resets the
search state). -/
def delete_entry (fs : FSTree) (s : AppState) (entry_name : String) :
    FSTree × AppState :=
  match deleteAt s.current_dir entry_name fs with
  | Except.error _ => (fs, s)
  | Except.ok fs2 => (fs2, read_current_directory_entries fs2 s)

/-- The events of the search-session lifecycle: the user starts a search
with a query (typing it sets search_query, clicking Search calls
execute_search), a worker thread finishes its walk and sends on its
channel, and the UI tick polls for a result. -/
inductive Ev : Type where
  | startSearch (q : String) : Ev
  | workerFinish (c : Nat) : Ev
  | pollSearch : Ev
deriving DecidableEq

/-- Whether an event is not a startSearch. -/
def evNotStart : Ev → Bool
  | Ev.startSearch _ => false
  | Ev.workerFinish _ => true
  | Ev.pollSearch => true

/-- One step of the search-session semantics against a fixed filesystem:
startSearch q sets the query and runs execute_search; workerFinish c moves
the finished worker's message from pending into the channel buffer (the
send succeeds whether or not anyone still listens, mirroring an mpsc send
on a channel whose Receiver may or may not have been dropped — a buffered
message on a dropped channel is simply never received, because channel
identifiers are never reused); pollSearch runs the polling block of
update. -/
def step (fs : FSTree) (s : AppState) : Ev → AppState
  | Ev.startSearch q => execute_search fs { s with search_query := q }
  | Ev.workerFinish c =>
      match s.pending.find? (fun pr => pr.1 == c) with
      | some pr =>
          { s with pending := s.pending.eraseP (fun pr => pr.1 == c),
                   inbox := s.inbox ++ [pr] }
      | none => s
  | Ev.pollSearch => update_poll_search s

/-- Well-formedness of the channel bookkeeping: every channel identifier in
use is below the allocation counter, so a freshly allocated channel is
distinct from every channel in use. -/
def WF (s : AppState) : Bool :=
  s.pending.all (fun pr => decide (pr.1 < s.nextChan)) &&
  s.inbox.all (fun pr => decide (pr.1 < s.nextChan)) &&
  (match s.search_receiver with
   | some c => decide (c < s.nextChan)
   | none => true)

/-- The session invariant used for the ordering guarantee: once the search
session on channel cb whose worker will deliver rb is the live one, the
receiver (when still present) is cb's, the stored results (when present)
are rb, and every message a worker has in flight or buffered on channel cb
carries rb. -/
def SessionInv (cb : Nat) (rb : List (List String)) (s : AppState) : Prop :=
  (s.search_receiver = none ∨ s.search_receiver = some cb) ∧
  (s.recursive_search_results = none ∨ s.recursive_search_results = some rb) ∧
  (∀ pr ∈ s.pending, pr.1 = cb → pr.2 = rb) ∧
  (∀ pr ∈ s.inbox, pr.1 = cb → pr.2 = rb)

/-- A freshly started app state over an empty bookkeeping, used as the base
of the concrete examples. -/
def baseState : AppState :=
  { current_dir := [], entries := [], filtered_entries := none,
    recursive_search_results := none, search_query := "",
    is_searching := false, search_receiver := none,
    nextChan := 0, pending := [], inbox := [] }

/-- A state in which a search session is live on channel 0 and its worker
has not yet delivered. -/
def searchingState : AppState :=
  { baseState with is_searching := true, search_receiver := some 0,
                   nextChan := 1, pending := [(0, [])] }

/-- A state in which a search session is live on channel 0 and its worker
has already sent the result [["hit"]]. -/
def pollState : AppState :=
  { baseState with is_searching := true, search_receiver := some 0,
                   nextChan := 1, inbox := [(0, [["hit"]])] }

/-- A readable directory holding files a and x, used by the mutation
examples. -/
def fsAX : FSTree :=
  FSTree.dir "r" true [FSTree.file "a" 0, FSTree.file "x" 1]

/-- fsAX after renaming a to b. -/
def fsBX : FSTree :=
  FSTree.dir "r" true [FSTree.file "b" 0, FSTree.file "x" 1]

lemma reaches_file {p q : List String} {nm : String} {ct : Nat} :
    Reaches p (FSTree.file nm ct) q ↔ q = p := by
  constructor
  · intro h
    cases h
    rfl
  · intro h
    subst h
    exact Reaches.here _ _

lemma reaches_dir {p q : List String} {nm : String} {ok : Bool}
    {cs : List FSTree} :
    Reaches p (FSTree.dir nm ok cs) q ↔
      q = p ∨ (ok = true ∧ ∃ c ∈ cs, Reaches (p ++ [c.name]) c q) := by
  constructor
  · intro h
    cases h with
    | here => exact Or.inl rfl
    | child c hc h => exact Or.inr ⟨rfl, c, hc, h⟩
  · intro h
    rcases h with h | ⟨hok, c, hc, h⟩
    · subst h
      exact Reaches.here _ _
    · subst hok
      exact Reaches.child c hc h

lemma mem_walkForest {p q : List String} {cs : List FSTree} :
    q ∈ walkForest p cs ↔ ∃ c ∈ cs, q ∈ walkTree (p ++ [c.name]) c := by
  induction cs with
  | nil => simp [walkForest]
  | cons c cs ih =>
      simp only [walkForest, List.mem_append, ih, List.mem_cons]
      constructor
      · rintro (h | ⟨d, hd, h⟩)
        · exact ⟨c, Or.inl rfl, h⟩
        · exact ⟨d, Or.inr hd, h⟩
      · rintro ⟨d, hd | hd, h⟩
        · subst hd
          exact Or.inl h
        · exact Or.inr ⟨d, hd, h⟩

theorem mem_walkTree : (t : FSTree) → (p q : List String) →
    (q ∈ walkTree p t ↔ Reaches p t q)
  | FSTree.file nm ct, p, q => by
      simp [walkTree, reaches_file]
  | FSTree.dir nm ok cs, p, q => by
      have ih : ∀ c ∈ cs, q ∈ walkTree (p ++ [c.name]) c ↔
          Reaches (p ++ [c.name]) c q := by
        intro c hc
        have : sizeOf c < sizeOf cs := List.sizeOf_lt_of_mem hc
        exact mem_walkTree c (p ++ [c.name]) q
      rw [walkTree, reaches_dir]
      cases ok with
      | false => simp
      | true =>
          rw [if_pos rfl]
          simp only [List.mem_cons, mem_walkForest, true_and]
          apply or_congr Iff.rfl
          constructor
          · rintro ⟨c, hc, h⟩
            exact ⟨c, hc, (ih c hc).mp h⟩
          · rintro ⟨c, hc, h⟩
            exact ⟨c, hc, (ih c hc).mpr h⟩
termination_by t => sizeOf t
decreasing_by
  simp only [FSTree.dir.sizeOf_spec]
  omega

/-- C1: find_entries_recursively returns exactly the set of paths reachable
without a traversal error in the subtree rooted at the start path (the start
path included) whose final component, lowercased, contains the non-empty
lowercase query: every returned path matches, and every reachable matching
path is returned. -/
theorem C1_walk_returns_exactly_matches (start : List String) (t : FSTree)
    (q : String) (hq : q ≠ "") (hlow : toLowerStr q = q) :
    ∀ p, p ∈ find_entries_recursively start t q ↔
      (Reaches start t p ∧
        strContains (toLowerStr (lastComponent p)) q = true) := by
  intro p
  rw [find_entries_recursively, List.mem_filter, mem_walkTree]

/-- Witness for C1 on the spec's own scenario: /docs containing report.txt
and a subfolder reports containing summary.csv, searched for "report". -/
theorem C1_witness :
    (("report" : String) ≠ "" ∧ toLowerStr "report" = "report") ∧
      (["docs", "reports", "summary.csv"] ∈
          find_entries_recursively ["docs"]
            (FSTree.dir "docs" true
              [FSTree.file "report.txt" 0,
               FSTree.dir "reports" true [FSTree.file "summary.csv" 0]])
            "report" ↔
        (Reaches ["docs"]
            (FSTree.dir "docs" true
              [FSTree.file "report.txt" 0,
               FSTree.dir "reports" true [FSTree.file "summary.csv" 0]])
            ["docs", "reports", "summary.csv"] ∧
          strContains (toLowerStr (lastComponent ["docs", "reports", "summary.csv"]))
            "report" = true)) :=
  ⟨⟨by decide, by decide⟩,
    C1_walk_returns_exactly_matches ["docs"]
      (FSTree.dir "docs" true
        [FSTree.file "report.txt" 0,
         FSTree.dir "reports" true [FSTree.file "summary.csv" 0]])
      "report" (by decide) (by decide) ["docs", "reports", "summary.csv"]⟩

lemma decorate_name_eq {a b : FSTree}
    (ha : ('/' : Char) ∉ a.name.data) (hb : ('/' : Char) ∉ b.name.data)
    (h : decorateEntry a = decorateEntry b) : a.name = b.name := by
  rcases hda : a.isDirB with _ | _ <;> rcases hdb : b.isDirB with _ | _ <;>
    simp only [decorateEntry, hda, hdb, if_true, if_false, Bool.false_eq_true] at h
  · exact h
  · exfalso
    apply ha
    rw [h, String.data_append]
    simp
  · exfalso
    apply hb
    rw [← h, String.data_append]
    simp
  · have h2 : a.name.data ++ ("/" : String).data = b.name.data ++ ("/" : String).data := by
      rw [← String.data_append, ← String.data_append, h]
    exact String.ext (List.append_cancel_right h2)

lemma read_ok_entries {fs : FSTree} {s : AppState} {cs : List FSTree}
    (hok : readDir fs s.current_dir = Except.ok cs) :
    (read_current_directory_entries fs s).entries = buildEntries cs := by
  simp [read_current_directory_entries, hok]

/-- C3: when the directory read succeeds, the entry list the lister leaves
in the state is sorted ascending under the case-sensitive ordinal string
order and contains no duplicates.  The hypotheses state what the operating
system guarantees about a real directory listing: entry names are distinct
within one directory, and no entry name contains a path separator. -/
theorem C3_entries_sorted_nodup (fs : FSTree) (s : AppState)
    (cs : List FSTree)
    (hok : readDir fs s.current_dir = Except.ok cs)
    (hnd : (cs.map FSTree.name).Nodup)
    (hns : ∀ c ∈ cs, ('/' : Char) ∉ c.name.data) :
    (read_current_directory_entries fs s).entries.Sorted (· ≤ ·) ∧
      (read_current_directory_entries fs s).entries.Nodup := by
  rw [read_ok_entries hok]
  constructor
  · exact List.sorted_insertionSort (· ≤ ·) _
  · have hperm := List.perm_insertionSort (· ≤ ·) (cs.map decorateEntry)
    rw [buildEntries]
    refine hperm.nodup_iff.mpr ?_
    have hpair : cs.Pairwise (fun a b => a.name ≠ b.name) :=
      List.pairwise_map.mp hnd
    have hdec : cs.Pairwise (fun a b => decorateEntry a ≠ decorateEntry b) := by
      refine List.Pairwise.imp_of_mem ?_ hpair
      intro a b hma hmb hne heq
      exact hne (decorate_name_eq (hns a hma) (hns b hmb) heq)
    exact List.pairwise_map.mpr hdec

/-- Witness for C3 at a readable directory with entries b.txt, a (a
directory) and c.txt. -/
theorem C3_witness :
    ((([FSTree.file "b.txt" 0, FSTree.dir "a" true [],
        FSTree.file "c.txt" 0].map FSTree.name).Nodup) ∧
      (read_current_directory_entries
          (FSTree.dir "r" true
            [FSTree.file "b.txt" 0, FSTree.dir "a" true [],
             FSTree.file "c.txt" 0]) baseState).entries.Sorted (· ≤ ·) ∧
      (read_current_directory_entries
          (FSTree.dir "r" true
            [FSTree.file "b.txt" 0, FSTree.dir "a" true [],
             FSTree.file "c.txt" 0]) baseState).entries.Nodup) :=
  ⟨by decide,
    C3_entries_sorted_nodup
      (FSTree.dir "r" true
        [FSTree.file "b.txt" 0, FSTree.dir "a" true [], FSTree.file "c.txt" 0])
      baseState
      [FSTree.file "b.txt" 0, FSTree.dir "a" true [], FSTree.file "c.txt" 0]
      rfl (by decide) (by decide)⟩

/-- C4: polling is a pure, total (hence never-blocking) function of the
state; when a receiver is held and its worker's value has arrived, the
first poll stores the value, clears the searching flag and drops the
channel, and polling again leaves the state exactly as it is — the value
is never re-delivered. -/
theorem C4_poll_delivers_at_most_once (s : AppState) (c : Nat)
    (r : List (List String))
    (hrec : s.search_receiver = some c)
    (hmsg : s.inbox.find? (fun pr => pr.1 == c) = some (c, r)) :
    (update_poll_search s).recursive_search_results = some r ∧
    (update_poll_search s).is_searching = false ∧
    (update_poll_search s).search_receiver = none ∧
    update_poll_search (update_poll_search s) = update_poll_search s := by
  have h1 : update_poll_search s =
      { s with recursive_search_results := some r, is_searching := false,
               search_receiver := none,
               inbox := s.inbox.eraseP (fun pr => pr.1 == c) } := by
    simp [update_poll_search, hrec, hmsg]
  rw [h1]
  exact ⟨rfl, rfl, rfl, rfl⟩

/-- Witness for C4 at a state whose live channel 0 has the buffered value
[["hit"]]. -/
theorem C4_witness :
    (pollState.search_receiver = some 0 ∧
      pollState.inbox.find? (fun pr => pr.1 == 0) = some (0, [["hit"]])) ∧
    ((update_poll_search pollState).recursive_search_results = some [["hit"]] ∧
      (update_poll_search pollState).is_searching = false ∧
      (update_poll_search pollState).search_receiver = none ∧
      update_poll_search (update_poll_search pollState) =
        update_poll_search pollState) :=
  ⟨⟨rfl, rfl⟩, C4_poll_delivers_at_most_once pollState 0 [["hit"]] rfl rfl⟩

/-- C5 counterexample: on a failed directory read the previously displayed
entry list is not kept — the code clears the entries before attempting the
read, so after the failure the in-memory entries are empty, not as they
were. -/
theorem C5_counterexample :
    readDir (FSTree.dir "r" false []) ([] : List String) = Except.error () ∧
    (read_current_directory_entries (FSTree.dir "r" false [])
        { baseState with entries := ["old.txt"] }).entries ≠
      ({ baseState with entries := ["old.txt"] } : AppState).entries := by
  exact ⟨rfl, by decide⟩

/-- C5 (amended): when listing the current directory fails with an IoError,
the operation still completes (the embedding is a total function; the code
only logs the error), but the in-memory entry list is cleared to empty
rather than left as it was, and the filter and search state are reset; the
current directory and all other fields are unchanged. -/
theorem C5_error_clears_entries (fs : FSTree) (s : AppState)
    (herr : readDir fs s.current_dir = Except.error ()) :
    read_current_directory_entries fs s =
      { s with entries := [], filtered_entries := none,
               recursive_search_results := none, is_searching := false,
               search_receiver := none } := by
  simp [read_current_directory_entries, herr]

/-- Witness for C5: a state showing old.txt whose current directory has
become unreadable. -/
theorem C5_witness :
    readDir (FSTree.dir "r" false []) ([] : List String) = Except.error () ∧
    read_current_directory_entries (FSTree.dir "r" false [])
        { baseState with entries := ["old.txt"], is_searching := true,
                         search_receiver := some 0, nextChan := 1 } =
      { baseState with entries := [], is_searching := false,
                       search_receiver := none, nextChan := 1 } :=
  ⟨rfl,
    C5_error_clears_entries (FSTree.dir "r" false [])
      { baseState with entries := ["old.txt"], is_searching := true,
                       search_receiver := some 0, nextChan := 1 } rfl⟩

/-- C6 counterexample: starting a search with an empty query is not a
no-op, and does not guarantee a state with no active session: on a state
that is displaying results, it clears them (so the state changes), and on a
state holding a live receiver, the receiver is left in place (so a session
is still live and can deliver on a later tick).  Such a receiver-holding
state is not reachable through the UI, which disables the search triggers
while is_searching holds, but the claim quantifies over every state. -/
theorem C6_counterexample :
    toLowerStr ({ baseState with
        recursive_search_results := some [["x"]],
        search_receiver := some 0, nextChan := 1 } : AppState).search_query
      = "" ∧
    execute_search (FSTree.dir "r" true [])
        { baseState with recursive_search_results := some [["x"]],
                         search_receiver := some 0, nextChan := 1 } ≠
      { baseState with recursive_search_results := some [["x"]],
                       search_receiver := some 0, nextChan := 1 } ∧
    (execute_search (FSTree.dir "r" true [])
        { baseState with recursive_search_results := some [["x"]],
                         search_receiver := some 0, nextChan := 1 }
      ).search_receiver ≠ none := by
  refine ⟨rfl, ?_, ?_⟩ <;> decide

/-- C6 (amended): starting a search with an empty query never creates a
search session — no worker is spawned, no channel is created, the searching
flag is cleared — and it clears the displayed results; every other field,
including any receiver still held from an earlier session, is left exactly
as it was (so the operation is not a strict no-op, and it does not remove a
previously live session's receiver; in UI-reachable states no such receiver
exists when an empty-query search can be triggered). -/
theorem C6_empty_query_no_session (fs : FSTree) (s : AppState)
    (hq : toLowerStr s.search_query = "") :
    execute_search fs s =
      { s with recursive_search_results := none, is_searching := false } := by
  simp [execute_search, hq]

/-- Witness for C6 on a state displaying results with an empty query. -/
theorem C6_witness :
    toLowerStr (({ baseState with
        recursive_search_results := some [["x"]] } : AppState).search_query)
      = "" ∧
    execute_search (FSTree.dir "r" true [])
        { baseState with recursive_search_results := some [["x"]] } =
      { baseState with recursive_search_results := none,
                       is_searching := false } :=
  ⟨rfl,
    C6_empty_query_no_session (FSTree.dir "r" true [])
      { baseState with recursive_search_results := some [["x"]] } rfl⟩

lemma read_resets_search (fs : FSTree) (s : AppState) :
    (read_current_directory_entries fs s).search_receiver = none ∧
    (read_current_directory_entries fs s).is_searching = false ∧
    (read_current_directory_entries fs s).recursive_search_results = none := by
  rcases hr : readDir fs s.current_dir with _ | _ <;>
    simp [read_current_directory_entries, hr]

/-- C7 counterexample: a successful rename does discard an active search
session — rename_entry reloads the directory via
read_current_directory_entries, whose reload closes both channel ends,
clears the searching flag and clears the results, so the session and its
pending delivery do not remain intact. -/
theorem C7_counterexample :
    searchingState.search_receiver = some 0 ∧
    searchingState.is_searching = true ∧
    renameAt searchingState.current_dir "a" "b" fsAX = Except.ok fsBX ∧
    (rename_entry fsAX searchingState "a" "b").2.search_receiver = none ∧
    (rename_entry fsAX searchingState "a" "b").2.is_searching = false := by
  refine ⟨rfl, rfl, rfl, rfl, rfl⟩

/-- C7 (amended): a successful rename or delete reloads the entry list and
in doing so resets the search state: the session's channel ends are
dropped, the searching flag is cleared and the displayed search results are
cleared — an in-flight search does not survive a successful mutation. -/
theorem C7_mutation_resets_search (fs fs2 fs3 : FSTree) (s : AppState)
    (old_name new_name del_name : String) :
    (renameAt s.current_dir old_name new_name fs = Except.ok fs2 →
      ((rename_entry fs s old_name new_name).2.search_receiver = none ∧
       (rename_entry fs s old_name new_name).2.is_searching = false ∧
       (rename_entry fs s old_name new_name).2.recursive_search_results
          = none)) ∧
    (deleteAt s.current_dir del_name fs = Except.ok fs3 →
      ((delete_entry fs s del_name).2.search_receiver = none ∧
       (delete_entry fs s del_name).2.is_searching = false ∧
       (delete_entry fs s del_name).2.recursive_search_results = none)) := by
  constructor
  · intro h
    simp only [rename_entry, h]
    exact read_resets_search fs2 s
  · intro h
    simp only [delete_entry, h]
    exact read_resets_search fs3 s

/-- Witness for C7: in a state with a live session, renaming a to b and
deleting x both succeed and reset the search state. -/
theorem C7_witness :
    ((rename_entry fsAX searchingState "a" "b").2.search_receiver = none ∧
     (rename_entry fsAX searchingState "a" "b").2.is_searching = false ∧
     (rename_entry fsAX searchingState "a" "b").2.recursive_search_results
        = none) ∧
    ((delete_entry fsAX searchingState "x").2.search_receiver = none ∧
     (delete_entry fsAX searchingState "x").2.is_searching = false ∧
     (delete_entry fsAX searchingState "x").2.recursive_search_results
        = none) :=
  ⟨(C7_mutation_resets_search fsAX fsBX
      (FSTree.dir "r" true [FSTree.file "a" 0]) searchingState
      "a" "b" "x").1 rfl,
   (C7_mutation_resets_search fsAX fsBX
      (FSTree.dir "r" true [FSTree.file "a" 0]) searchingState
      "a" "b" "x").2 rfl⟩

/-- C9: the walk is set-deterministic.  A run of the search is modelled by
any permutation of the canonical collected list, since rayon's par_bridge
over the walk keeps exactly the matching entries and only the collection
order depends on scheduling; any two runs of the same search against the
unchanged filesystem contain the same paths. -/
theorem C9_search_set_deterministic (start : List String) (t : FSTree)
    (q : String) (out1 out2 : List (List String))
    (h1 : out1.Perm (find_entries_recursively start t q))
    (h2 : out2.Perm (find_entries_recursively start t q))
    (hq : q ≠ "") :
    ∀ p, p ∈ out1 ↔ p ∈ out2 := by
  intro p
  rw [h1.mem_iff, h2.mem_iff]

/-- Witness for C9: two differently ordered runs of the same search over
the same tree agree on membership of a concrete path. -/
theorem C9_witness :
    (["d", "hit.txt"] ∈
        (find_entries_recursively ["d"]
          (FSTree.dir "d" true
            [FSTree.file "hit.txt" 0, FSTree.file "hotdog.txt" 0])
          "hit").reverse ↔
      ["d", "hit.txt"] ∈
        find_entries_recursively ["d"]
          (FSTree.dir "d" true
            [FSTree.file "hit.txt" 0, FSTree.file "hotdog.txt" 0])
          "hit") :=
  C9_search_set_deterministic ["d"]
    (FSTree.dir "d" true
      [FSTree.file "hit.txt" 0, FSTree.file "hotdog.txt" 0])
    "hit"
    (find_entries_recursively ["d"]
      (FSTree.dir "d" true
        [FSTree.file "hit.txt" 0, FSTree.file "hotdog.txt" 0])
      "hit").reverse
    (find_entries_recursively ["d"]
      (FSTree.dir "d" true
        [FSTree.file "hit.txt" 0, FSTree.file "hotdog.txt" 0])
      "hit")
    (List.reverse_perm _) (List.Perm.refl _) (by decide)
    ["d", "hit.txt"]

/-- C10: navigating to a target that is not a directory is a complete
no-op: the state — current directory, entries, filter, search session,
searching flag and displayed results — is returned unchanged. -/
theorem C10_navigate_non_directory_noop (fs : FSTree) (s : AppState)
    (entry_name : String)
    (h : isDir fs (s.current_dir ++ [entry_name]) = false) :
    navigate_to fs s entry_name = s := by
  simp [navigate_to, h]

/-- Witness for C10: navigating onto the file f.txt changes nothing. -/
theorem C10_witness :
    isDir (FSTree.dir "r" true [FSTree.file "f.txt" 0])
        (searchingState.current_dir ++ ["f.txt"]) = false ∧
    navigate_to (FSTree.dir "r" true [FSTree.file "f.txt" 0])
        searchingState "f.txt" = searchingState :=
  ⟨rfl,
    C10_navigate_non_directory_noop
      (FSTree.dir "r" true [FSTree.file "f.txt" 0]) searchingState
      "f.txt" rfl⟩

lemma setName_name (n : String) (c : FSTree) : (setName n c).name = n := by
  cases c <;> rfl

lemma find_renamed_b (ca : Nat) : ∀ cs : List FSTree,
    findChild cs "a.txt" = some (FSTree.file "a.txt" ca) →
    findChild ((cs.filter (fun c => c.name != "b.txt")).map
        (fun c => if c.name == "a.txt" then setName "b.txt" c else c))
      "b.txt" = some (FSTree.file "b.txt" ca) := by
  intro cs
  induction cs with
  | nil => intro h; simp [findChild] at h
  | cons c rest ih =>
      intro h
      by_cases hca : c.name = "a.txt"
      · rw [findChild, List.find?_cons_of_pos _ (by simp [hca])] at h
        have hc : c = FSTree.file "a.txt" ca := Option.some.inj h
        subst hc
        rfl
      · rw [findChild, List.find?_cons_of_neg _ (by simp [hca])] at h
        by_cases hcb : c.name = "b.txt"
        · rw [List.filter_cons_of_neg (by simp [hcb])]
          exact ih h
        · rw [List.filter_cons_of_pos (by simp [hcb]), List.map_cons,
            if_neg (by simp [hca]), findChild,
            List.find?_cons_of_neg _ (by simp [hcb])]
          exact ih h

/-- C8 counterexample: in a directory holding a.txt (content 1) and b.txt
(content 2), the rename does not return an IoError and does not leave the
filesystem unchanged: std::fs::rename replaces an existing file
destination, so it succeeds and b.txt now carries a.txt's content. -/
theorem C8_counterexample :
    renameChildren [FSTree.file "a.txt" 1, FSTree.file "b.txt" 2]
        "a.txt" "b.txt" = Except.ok [FSTree.file "b.txt" 1] ∧
    renameChildren [FSTree.file "a.txt" 1, FSTree.file "b.txt" 2]
        "a.txt" "b.txt" ≠ Except.error () := by
  constructor
  · rfl
  · intro h
    rw [show renameChildren [FSTree.file "a.txt" 1, FSTree.file "b.txt" 2]
          "a.txt" "b.txt" = Except.ok [FSTree.file "b.txt" 1] from rfl] at h
    exact Except.noConfusion h

/-- C8 (amended): for every directory containing both a file a.txt and a
file b.txt, rename(dir, a.txt, b.txt) succeeds — no IoError — and replaces
the destination: afterwards a.txt is gone and b.txt carries a.txt's former
content. -/
theorem C8_rename_replaces_existing_file (cs : List FSTree) (ca cb : Nat)
    (ha : findChild cs "a.txt" = some (FSTree.file "a.txt" ca))
    (hb : findChild cs "b.txt" = some (FSTree.file "b.txt" cb)) :
    ∃ cs2, renameChildren cs "a.txt" "b.txt" = Except.ok cs2 ∧
      findChild cs2 "a.txt" = none ∧
      findChild cs2 "b.txt" = some (FSTree.file "b.txt" ca) := by
  have hne : ("a.txt" : String) ≠ "b.txt" := by decide
  refine ⟨(cs.filter (fun c => c.name != "b.txt")).map
      (fun c => if c.name == "a.txt" then setName "b.txt" c else c),
      ?_, ?_, ?_⟩
  · rw [renameChildren, if_neg hne, ha, hb]
  · rw [findChild, List.find?_eq_none]
    intro x hx
    rw [List.mem_map] at hx
    obtain ⟨y, hy, hxy⟩ := hx
    rw [List.mem_filter] at hy
    by_cases hya : y.name = "a.txt"
    · rw [if_pos (by simp [hya])] at hxy
      subst hxy
      simp [setName_name]
    · rw [if_neg (by simp [hya])] at hxy
      subst hxy
      simp [hya]
  · exact find_renamed_b ca cs ha

/-- Witness for C8 at the two-file directory of the scenario. -/
theorem C8_witness :
    (findChild [FSTree.file "a.txt" 1, FSTree.file "b.txt" 2] "a.txt" =
        some (FSTree.file "a.txt" 1) ∧
      findChild [FSTree.file "a.txt" 1, FSTree.file "b.txt" 2] "b.txt" =
        some (FSTree.file "b.txt" 2)) ∧
    ∃ cs2, renameChildren [FSTree.file "a.txt" 1, FSTree.file "b.txt" 2]
          "a.txt" "b.txt" = Except.ok cs2 ∧
        findChild cs2 "a.txt" = none ∧
        findChild cs2 "b.txt" = some (FSTree.file "b.txt" 1) :=
  ⟨⟨rfl, rfl⟩,
    C8_rename_replaces_existing_file
      [FSTree.file "a.txt" 1, FSTree.file "b.txt" 2] 1 2 rfl rfl⟩

lemma execute_search_of_empty (fs : FSTree) (s : AppState)
    (hq : toLowerStr s.search_query = "") :
    execute_search fs s =
      { s with recursive_search_results := none, is_searching := false } := by
  simp [execute_search, hq]

lemma execute_search_of_ne (fs : FSTree) (s : AppState)
    (hq : ¬ toLowerStr s.search_query = "") :
    execute_search fs s =
      { s with search_receiver := some s.nextChan,
               nextChan := s.nextChan + 1,
               is_searching := true,
               recursive_search_results := none,
               pending := s.pending ++
                 [(s.nextChan,
                    searchResult fs s.current_dir (toLowerStr s.search_query))] } := by
  simp [execute_search, hq]

lemma WF_iff {s : AppState} : WF s = true ↔
    ((∀ pr ∈ s.pending, pr.1 < s.nextChan) ∧
     (∀ pr ∈ s.inbox, pr.1 < s.nextChan) ∧
     (∀ c, s.search_receiver = some c → c < s.nextChan)) := by
  rcases hr : s.search_receiver with _ | c <;>
    simp [WF, hr, List.all_eq_true, and_assoc]

lemma step_workerFinish_none (fs : FSTree) (s : AppState) (c : Nat)
    (hf : s.pending.find? (fun pr => pr.1 == c) = none) :
    step fs s (Ev.workerFinish c) = s := by
  simp only [step, hf]

lemma step_workerFinish_some (fs : FSTree) (s : AppState) (c : Nat)
    (pr : Nat × List (List String))
    (hf : s.pending.find? (fun pr => pr.1 == c) = some pr) :
    step fs s (Ev.workerFinish c) =
      { s with pending := s.pending.eraseP (fun pr => pr.1 == c),
               inbox := s.inbox ++ [pr] } := by
  simp only [step, hf]

lemma update_poll_none (s : AppState) (hrec : s.search_receiver = none) :
    update_poll_search s = s := by
  simp only [update_poll_search, hrec]

lemma update_poll_ok (s : AppState) (c : Nat) (pr : Nat × List (List String))
    (hrec : s.search_receiver = some c)
    (hf : s.inbox.find? (fun pr => pr.1 == c) = some pr) :
    update_poll_search s =
      { s with recursive_search_results := some pr.2,
               is_searching := false, search_receiver := none,
               inbox := s.inbox.eraseP (fun pr => pr.1 == c) } := by
  simp only [update_poll_search, hrec, hf]

lemma update_poll_empty (s : AppState) (c : Nat)
    (hrec : s.search_receiver = some c)
    (hf : s.inbox.find? (fun pr => pr.1 == c) = none)
    (hany : s.pending.any (fun pr => pr.1 == c) = true) :
    update_poll_search s = s := by
  simp only [update_poll_search, hrec, hf, hany, if_true]

lemma update_poll_disconnected (s : AppState) (c : Nat)
    (hrec : s.search_receiver = some c)
    (hf : s.inbox.find? (fun pr => pr.1 == c) = none)
    (hany : s.pending.any (fun pr => pr.1 == c) = false) :
    update_poll_search s =
      { s with is_searching := false, search_receiver := none } := by
  simp only [update_poll_search, hrec, hf, hany, Bool.false_eq_true, if_false]

lemma WF_step (fs : FSTree) (s : AppState) (e : Ev) (h : WF s = true) :
    WF (step fs s e) = true := by
  rw [WF_iff] at h
  obtain ⟨hp, hi, hr⟩ := h
  cases e with
  | startSearch q =>
      show WF (execute_search fs { s with search_query := q }) = true
      by_cases hq : toLowerStr q = ""
      · rw [execute_search_of_empty _ _ (by simpa using hq), WF_iff]
        exact ⟨hp, hi, hr⟩
      · rw [execute_search_of_ne _ _ (by simpa using hq), WF_iff]
        refine ⟨?_, ?_, ?_⟩
        · intro pr hpr
          rw [List.mem_append] at hpr
          rcases hpr with hpr | hpr
          · exact Nat.lt_succ_of_lt (hp pr hpr)
          · rw [List.mem_singleton] at hpr
            subst hpr
            exact Nat.lt_succ_self _
        · intro pr hpr
          exact Nat.lt_succ_of_lt (hi pr hpr)
        · intro c hc
          injection hc with hc
          subst hc
          exact Nat.lt_succ_self _
  | workerFinish c =>
      cases hf : s.pending.find? (fun pr => pr.1 == c) with
      | none =>
          rw [step_workerFinish_none fs s c hf, WF_iff]
          exact ⟨hp, hi, hr⟩
      | some m =>
          rw [step_workerFinish_some fs s c m hf, WF_iff]
          refine ⟨?_, ?_, hr⟩
          · intro pr2 hpr2
            exact hp pr2 (List.mem_of_mem_eraseP hpr2)
          · intro pr2 hpr2
            rw [List.mem_append] at hpr2
            rcases hpr2 with hpr2 | hpr2
            · exact hi pr2 hpr2
            · rw [List.mem_singleton] at hpr2
              subst hpr2
              exact hp pr2 (List.mem_of_find?_eq_some hf)
  | pollSearch =>
      show WF (update_poll_search s) = true
      rcases hrec : s.search_receiver with _ | c
      · rw [update_poll_none s hrec, WF_iff]
        exact ⟨hp, hi, hr⟩
      · cases hf : s.inbox.find? (fun pr => pr.1 == c) with
        | none =>
            cases hany : s.pending.any (fun pr => pr.1 == c) with
            | false =>
                rw [update_poll_disconnected s c hrec hf hany, WF_iff]
                exact ⟨hp, hi, fun c2 hc2 => Option.noConfusion hc2⟩
            | true =>
                rw [update_poll_empty s c hrec hf hany, WF_iff]
                exact ⟨hp, hi, hr⟩
        | some m =>
            rw [update_poll_ok s c m hrec hf, WF_iff]
            refine ⟨hp, ?_, fun c2 hc2 => Option.noConfusion hc2⟩
            intro pr2 hpr2
            exact hi pr2 (List.mem_of_mem_eraseP hpr2)

lemma sessionInv_start (fs : FSTree) (s : AppState) (q : String)
    (hWF : WF s = true) (hq : ¬ toLowerStr q = "") :
    SessionInv s.nextChan (searchResult fs s.current_dir (toLowerStr q))
      (step fs s (Ev.startSearch q)) := by
  rw [WF_iff] at hWF
  obtain ⟨hp, hi, _⟩ := hWF
  have hstep : step fs s (Ev.startSearch q) =
      { s with search_query := q,
               search_receiver := some s.nextChan,
               nextChan := s.nextChan + 1,
               is_searching := true,
               recursive_search_results := none,
               pending := s.pending ++
                 [(s.nextChan,
                    searchResult fs s.current_dir (toLowerStr q))] } := by
    show execute_search fs { s with search_query := q } = _
    rw [execute_search_of_ne _ _ (by simpa using hq)]
  rw [hstep]
  refine ⟨Or.inr rfl, Or.inl rfl, ?_, ?_⟩
  · intro pr hpr
    rw [List.mem_append] at hpr
    rcases hpr with hpr | hpr
    · intro heq
      exact absurd heq (Nat.ne_of_lt (hp pr hpr))
    · rw [List.mem_singleton] at hpr
      subst hpr
      intro _
      rfl
  · intro pr hpr hpr1
    exact absurd hpr1 (Nat.ne_of_lt (hi pr hpr))

lemma sessionInv_step (fs : FSTree) (cb : Nat) (rb : List (List String))
    (s : AppState) (e : Ev) (hInv : SessionInv cb rb s)
    (he : evNotStart e = true) : SessionInv cb rb (step fs s e) := by
  have hrec := hInv.1
  have hres := hInv.2.1
  have hpend := hInv.2.2.1
  have hinb := hInv.2.2.2
  cases e with
  | startSearch q => simp [evNotStart] at he
  | workerFinish c =>
      cases hf : s.pending.find? (fun pr => pr.1 == c) with
      | none =>
          rw [step_workerFinish_none fs s c hf]
          exact hInv
      | some m =>
          rw [step_workerFinish_some fs s c m hf]
          refine ⟨hrec, hres, ?_, ?_⟩
          · intro pr2 hpr2
            exact hpend pr2 (List.mem_of_mem_eraseP hpr2)
          · intro pr2 hpr2
            rw [List.mem_append] at hpr2
            rcases hpr2 with hpr2 | hpr2
            · exact hinb pr2 hpr2
            · rw [List.mem_singleton] at hpr2
              subst hpr2
              exact hpend pr2 (List.mem_of_find?_eq_some hf)
  | pollSearch =>
      show SessionInv cb rb (update_poll_search s)
      rcases hrec2 : s.search_receiver with _ | c
      · rw [update_poll_none s hrec2]
        exact hInv
      · have hc : c = cb := by
          rcases hrec with hrec | hrec
          · rw [hrec2] at hrec
            exact Option.noConfusion hrec
          · rw [hrec2] at hrec
            exact Option.some.inj hrec
        subst hc
        cases hf : s.inbox.find? (fun pr => pr.1 == c) with
        | none =>
            cases hany : s.pending.any (fun pr => pr.1 == c) with
            | false =>
                rw [update_poll_disconnected s c hrec2 hf hany]
                exact ⟨Or.inl rfl, hres, hpend, hinb⟩
            | true =>
                rw [update_poll_empty s c hrec2 hf hany]
                exact hInv
        | some m =>
            have hm1 : m.1 = c := by
              have h2 := List.find?_some hf
              simpa using h2
            have hm2 : m.2 = rb :=
              hinb m (List.mem_of_find?_eq_some hf) hm1
            rw [update_poll_ok s c m hrec2 hf]
            refine ⟨Or.inl rfl, Or.inr ?_, hpend, ?_⟩
            · rw [hm2]
            · intro pr3 hpr3
              exact hinb pr3 (List.mem_of_mem_eraseP hpr3)

lemma sessionInv_foldl (fs : FSTree) (cb : Nat) (rb : List (List String)) :
    ∀ (evs : List Ev) (s : AppState), SessionInv cb rb s →
      evs.all evNotStart = true →
      SessionInv cb rb (evs.foldl (step fs) s) := by
  intro evs
  induction evs with
  | nil =>
      intro s h _
      exact h
  | cons e evs ih =>
      intro s h hall
      rw [List.all_cons, Bool.and_eq_true] at hall
      rw [List.foldl_cons]
      exact ih _ (sessionInv_step fs cb rb s e h hall.1) hall.2

lemma execute_search_current_dir (fs : FSTree) (s : AppState) :
    (execute_search fs s).current_dir = s.current_dir := by
  by_cases hq : toLowerStr s.search_query = ""
  · rw [execute_search_of_empty _ _ hq]
  · rw [execute_search_of_ne _ _ hq]

/-- C2: if search B is started while search A is still running, the only
result that can ever be stored in the state afterwards is B's.  After the
two startSearch events, under any further sequence of worker completions
and polls — in particular A's worker finishing after B's — the stored
recursive_search_results is either still empty or exactly the result of
B's walk; A's late delivery is never applied. -/
theorem C2_second_search_wins (fs : FSTree) (s0 : AppState) (qa qb : String)
    (hWF : WF s0 = true)
    (hqa : ¬ toLowerStr qa = "") (hqb : ¬ toLowerStr qb = "")
    (evs : List Ev) (hevs : evs.all evNotStart = true) :
    (evs.foldl (step fs)
        (step fs (step fs s0 (Ev.startSearch qa)) (Ev.startSearch qb))
      ).recursive_search_results = none ∨
    (evs.foldl (step fs)
        (step fs (step fs s0 (Ev.startSearch qa)) (Ev.startSearch qb))
      ).recursive_search_results =
        some (searchResult fs s0.current_dir (toLowerStr qb)) := by
  have hWF1 : WF (step fs s0 (Ev.startSearch qa)) = true :=
    WF_step fs s0 _ hWF
  have hcd : (step fs s0 (Ev.startSearch qa)).current_dir = s0.current_dir :=
    execute_search_current_dir fs { s0 with search_query := qa }
  have hInv2 := sessionInv_start fs (step fs s0 (Ev.startSearch qa)) qb hWF1 hqb
  rw [hcd] at hInv2
  have hfin := sessionInv_foldl fs _ _ evs _ hInv2 hevs
  simp only [SessionInv] at hfin
  exact hfin.2.1

/-- Witness for C2: search A for "zz" (which matches nothing) is started,
then search B for "hit"; B's worker finishes and is polled, then A's worker
finishes late and another poll happens; the stored result is B's. -/
theorem C2_witness :
    (WF baseState = true ∧
      ([Ev.workerFinish 1, Ev.pollSearch, Ev.workerFinish 0,
        Ev.pollSearch].all evNotStart = true)) ∧
    (([Ev.workerFinish 1, Ev.pollSearch, Ev.workerFinish 0,
        Ev.pollSearch].foldl
          (step (FSTree.dir "r" true [FSTree.file "hit.txt" 0]))
          (step (FSTree.dir "r" true [FSTree.file "hit.txt" 0])
            (step (FSTree.dir "r" true [FSTree.file "hit.txt" 0]) baseState
              (Ev.startSearch "zz"))
            (Ev.startSearch "hit"))
      ).recursive_search_results = none ∨
      ([Ev.workerFinish 1, Ev.pollSearch, Ev.workerFinish 0,
        Ev.pollSearch].foldl
          (step (FSTree.dir "r" true [FSTree.file "hit.txt" 0]))
          (step (FSTree.dir "r" true [FSTree.file "hit.txt" 0])
            (step (FSTree.dir "r" true [FSTree.file "hit.txt" 0]) baseState
              (Ev.startSearch "zz"))
            (Ev.startSearch "hit"))
      ).recursive_search_results =
        some (searchResult (FSTree.dir "r" true [FSTree.file "hit.txt" 0])
          baseState.current_dir (toLowerStr "hit"))) :=
  ⟨⟨by decide, by decide⟩,
    C2_second_search_wins (FSTree.dir "r" true [FSTree.file "hit.txt" 0])
      baseState "zz" "hit" (by decide) (by decide) (by decide)
      [Ev.workerFinish 1, Ev.pollSearch, Ev.workerFinish 0, Ev.pollSearch]
      (by decide)⟩
